import Mathlib

/-!
Shallow embedding of `jmetz/bioimg_rs` (crates `bioimg_spec` and `bioimg_gui`)
for verification of its specification.

Strings from the Rust side are embedded as `List Char`; `usize` values as
`Nat` together with the explicit bound `2 ^ 64` where overflow matters.
Fallible conversions (`TryFrom` impls) become functions into `Except`.
-/

namespace BioimgRs

/-! ## `std` integer parsing, as used by `comp.parse::<usize>()`
(`src/bioimg_spec/src/rdf/version.rs`) -/

/-- The error kinds of Rust `core::num::ParseIntError` reachable from
`str::parse::<usize>`: empty input, a non-digit character, positive overflow. -/
inductive ParseIntError where
  | empty
  | invalidDigit
  | posOverflow
deriving DecidableEq, Repr

/-- Numeric value of an ASCII decimal digit, `none` for any other character
(mirrors `char::to_digit(10)`). -/
def digitVal (c : Char) : Option Nat :=
  if 48 ≤ c.toNat ∧ c.toNat ≤ 57 then some (c.toNat - 48) else none

/-- Digit-accumulation loop of `usize::from_str`: one checked
multiply-and-add per character, failing on the first non-digit or on
overflow past `2 ^ 64 - 1`. -/
def parseDigitsU64 (acc : Nat) : List Char → Except ParseIntError Nat
  | [] => .ok acc
  | c :: rest =>
    match digitVal c with
    | none => .error .invalidDigit
    | some d =>
      if 10 * acc + d < 2 ^ 64 then parseDigitsU64 (10 * acc + d) rest
      else .error .posOverflow

/-- `str::parse::<usize>`: empty input fails with `Empty`; a leading `+` is
stripped (a bare `+` fails with `InvalidDigit`); then the digit loop runs
with 64-bit overflow checking. A `-` is not a sign for an unsigned target
and falls through to the digit loop as an invalid digit. -/
def parseUsize (l : List Char) : Except ParseIntError Nat :=
  match l with
  | [] => .error .empty
  | c :: rest =>
    if c = '+' then
      match rest with
      | [] => .error .invalidDigit
      | _ => parseDigitsU64 0 rest
    else parseDigitsU64 0 (c :: rest)

/-! ## Decimal formatting, as used by `format!("{}.{}.{}", ...)` -/

/-- ASCII character of a decimal digit. -/
def digitChar (d : Nat) : Char := Char.ofNat (48 + d)

/-- Accumulator form of decimal rendering: prepends the digits of `n` to
`rest`, most significant first. -/
def natToDigitsAux (n : Nat) (rest : List Char) : List Char :=
  if h : n < 10 then digitChar n :: rest
  else natToDigitsAux (n / 10) (digitChar (n % 10) :: rest)
termination_by n
decreasing_by exact Nat.div_lt_self (by omega) (by omega)

/-- Decimal rendering of a natural number, as `Display` for an unsigned
integer produces it. -/
def natToDigits (n : Nat) : List Char := natToDigitsAux n []

/-- Number of decimal digits rendered for `n`. -/
def digitCount (n : Nat) : Nat :=
  if h : n < 10 then 1 else digitCount (n / 10) + 1
termination_by n
decreasing_by exact Nat.div_lt_self (by omega) (by omega)

/-! ## `str::split('.')` -/

/-- `value.split(".")` on an embedded string: splitting on every dot,
keeping empty components (so the empty string yields one empty component). -/
def splitDot : List Char → List (List Char)
  | [] => [[]]
  | c :: rest =>
    if c = '.' then [] :: splitDot rest
    else
      match splitDot rest with
      | [] => [[c]]
      | x :: xs => (c :: x) :: xs

/-! ## `Version` (`src/bioimg_spec/src/rdf/version.rs`) -/

/-- `Version { major, minor, patch }`; each field is a Rust `usize`. -/
structure Version where
  major : Nat
  minor : Nat
  patch : Nat
deriving DecidableEq, Repr

/-- `VersionParsingError` of `version.rs`. -/
inductive VersionParsingError where
  | wrongNumberOfComponents (found : Nat)
  | parseIntError (e : ParseIntError)
  | unexpectedVersion (expected found : Version)
deriving DecidableEq, Repr

/-- `.map(|comp| comp.parse::<usize>()).collect::<Result<Vec<_>, _>>()`:
parse the components left to right, stopping at the first failing parse. -/
def collectUsizes : List (List Char) → Except ParseIntError (List Nat)
  | [] => .ok []
  | c :: rest =>
    match parseUsize c with
    | .error e => .error e
    | .ok n =>
      match collectUsizes rest with
      | .error e => .error e
      | .ok ns => .ok (n :: ns)

/-- `impl TryFrom<&str> for Version`: split on `.`, parse every component as
`usize` collecting into a `Result` (stopping at the first failing parse),
then require exactly 3 components. -/
def versionTryFrom (value : List Char) : Except VersionParsingError Version :=
  match collectUsizes (splitDot value) with
  | .error e => .error (.parseIntError e)
  | .ok parts =>
    if h : parts.length = 3 then
      .ok { major := parts.get ⟨0, by omega⟩
            minor := parts.get ⟨1, by omega⟩
            patch := parts.get ⟨2, by omega⟩ }
    else .error (.wrongNumberOfComponents parts.length)

/-- `impl Into<String> for Version`: `format!("{}.{}.{}", major, minor, patch)`. -/
def versionIntoString (v : Version) : List Char :=
  natToDigits v.major ++ ('.' :: (natToDigits v.minor ++ ('.' :: natToDigits v.patch)))

/-- `impl TryFrom<Version> for LiteralVersion<MAJOR, MINOR, PATCH>`: succeed
exactly on the pinned triple, otherwise `UnexpectedVersion { expected, found }`
where `expected` is `Self.into()`. -/
def literalVersionTryFrom (MAJOR MINOR PATCH : Nat) (value : Version) :
    Except VersionParsingError Unit :=
  if value.major = MAJOR ∧ value.minor = MINOR ∧ value.patch = PATCH then
    .ok ()
  else
    .error (.unexpectedVersion ⟨MAJOR, MINOR, PATCH⟩ value)

/-! ## IEEE-754 single precision, for `CoverImage`
(`src/bioimg_spec/src/runtime/cover_image.rs`)

The cover-image check converts `u32` dimensions with `as f32` and divides;
both Rust operations are correctly rounded (round to nearest, ties to even).
For the reachable magnitudes (`u32` inputs, hence ratios in
`[2 ^ (-32), 2 ^ 32]`) every result is a normal `f32` or zero, so a finite
nonnegative `f32` is modelled as a normalized mantissa/exponent pair whose
denoted value is `mantissa * 2 ^ (exponent - 23)`; structural equality then
coincides with IEEE `==` on these values. `none` stands for the non-finite
results (`inf`/`NaN`) arising from a zero height, which compare unequal to
every finite constant. -/

/-- Round `num / den` (with `den ≠ 0`) to the nearest integer, ties to even. -/
def rne (num den : Nat) : Nat :=
  let q := num / den
  let r := num % den
  if den < 2 * r then q + 1
  else if 2 * r < den then q
  else if q % 2 = 0 then q else q + 1

/-- `⌊log2 n⌋` via explicit fuel (structural recursion, so the kernel can
evaluate it); correct whenever `n ≤ fuel`. -/
def log2Fuel : Nat → Nat → Nat
  | 0, _ => 0
  | fuel + 1, n => if n < 2 then 0 else log2Fuel fuel (n / 2) + 1

/-- `⌊log2 (a / b)⌋` for positive naturals `a`, `b`. -/
def floorLog2 (a b : Nat) : Int :=
  let e0 : Int := (log2Fuel a a : Int) - (log2Fuel b b : Int)
  let ge : Bool :=
    if 0 ≤ e0 then decide (b * 2 ^ e0.toNat ≤ a) else decide (b ≤ a * 2 ^ (-e0).toNat)
  if ge then e0 else e0 - 1

/-- A finite nonnegative `f32` value, denoting `mantissa * 2 ^ (exponent - 23)`;
normalized: `mantissa ∈ [2 ^ 23, 2 ^ 24)` for nonzero values, and zero is
`⟨0, 0⟩`, so distinct representations denote distinct values. -/
structure F32 where
  mantissa : Nat
  exponent : Int
deriving DecidableEq, Repr

/-- The `f32` constant `0.0`. -/
def F32.zero : F32 := ⟨0, 0⟩

/-- The `f32` constant `1.0`. -/
def F32.one : F32 := ⟨2 ^ 23, 0⟩

/-- The `f32` constant `2.0`. -/
def F32.two : F32 := ⟨2 ^ 23, 1⟩

/-- Round the positive rational `a / b` to the nearest `f32` (round to
nearest, ties to even). Valid when the result neither overflows nor is
subnormal, which holds for every value reachable in the cover-image ratio
computation. -/
def roundF32 (a b : Nat) : F32 :=
  let e : Int := floorLog2 a b
  let s : Int := 23 - e
  let m : Nat := if 0 ≤ s then rne (a * 2 ^ s.toNat) b else rne a (b * 2 ^ (-s).toNat)
  if m = 2 ^ 24 then ⟨2 ^ 23, e + 1⟩ else ⟨m, e⟩

/-- `n as f32` for a `u32` value `n` (correctly rounded conversion). -/
def natToF32 (n : Nat) : F32 := if n = 0 then F32.zero else roundF32 n 1

/-- `f32` division of finite nonnegative values, correctly rounded: the
exact quotient `(mx / my) * 2 ^ (ex - ey)` is formed as a fraction of
naturals and rounded. Presupposes `y ≠ 0` (callers handle zero height
separately). -/
def f32Div (x y : F32) : F32 :=
  if x.mantissa = 0 then F32.zero
  else
    let d : Int := x.exponent - y.exponent
    if 0 ≤ d then roundF32 (x.mantissa * 2 ^ d.toNat) y.mantissa
    else roundF32 x.mantissa (y.mantissa * 2 ^ (-d).toNat)

/-- `(width as f32) / (height as f32)` in `f32` arithmetic: `none` when the
division is non-finite (zero height gives `inf` or `NaN`), otherwise the
correctly rounded finite quotient. -/
def ratioF32 (width height : Nat) : Option F32 :=
  if height = 0 then none
  else some (f32Div (natToF32 width) (natToF32 height))

/-! ## `CoverImage` (`src/bioimg_spec/src/runtime/cover_image.rs`) -/

/-- `CoverImage::MAX_SIZE_IN_BYTES = 500 * 1024`. -/
def maxSizeInBytes : Nat := 500 * 1024

/-- `CoverImage::ALLOWED_WIDTH_TO_HEIGHT_RATIOS = [1.0, 2.0]`, as exact
`f32` values. -/
def allowedWidthToHeightRatios : List (Option F32) := [some F32.one, some F32.two]

/-- `CoverImage::is_valid_ratio`: membership of the computed ratio in the
allowed list, by `f32` equality (a non-finite ratio equals no constant). -/
def isValidRatio (ratio : Option F32) : Bool :=
  (allowedWidthToHeightRatios.find? (fun v => v = ratio)).isSome

/-- Errors of the decoding collaborator (`image::ImageError`), opaque here. -/
inductive ImageError where
  | decodeFailure
deriving DecidableEq, Repr

/-- `CoverImageParsingError` of `cover_image.rs`; `badAspectRatio` carries
the offending `f32` ratio. -/
inductive CoverImageParsingError where
  | tooBig (size : Nat)
  | badAspectRatio (ratio : Option F32)
  | badImageData (e : ImageError)
deriving DecidableEq, Repr

/-- A decoded image, reduced to the data the checks consult: its pixel
dimensions (`u32` in Rust). -/
structure DecodedImage where
  width : Nat
  height : Nat
deriving DecidableEq, Repr

/-- `impl TryFrom<&[u8]> for CoverImage`: reject buffers over
`MAX_SIZE_IN_BYTES` with `TooBig`, then decode (the decoder is the external
`image` crate, passed in as `decode`; its failure becomes `BadImageData`),
then reject any ratio outside the allowed list with `BadAspectRatio`. -/
def coverImageTryFrom (decode : List Nat → Except ImageError DecodedImage)
    (value : List Nat) : Except CoverImageParsingError DecodedImage :=
  let dataSize := value.length
  if maxSizeInBytes < dataSize then .error (.tooBig dataSize)
  else
    match decode value with
    | .error e => .error (.badImageData e)
    | .ok img =>
      let ratio := ratioF32 img.width img.height
      if !isValidRatio ratio then .error (.badAspectRatio ratio)
      else .ok img

/-! ## `Age` (`src/bioimg_gui/src/widgets/age_widget.rs`) -/

/-- `AgeParsingError`: the only variant is `TooOld`. -/
inductive AgeParsingError where
  | tooOld
deriving DecidableEq, Repr

/-- `impl TryFrom<u8> for Age`: values over 120 fail with `TooOld`,
everything else is accepted (the wrapped `u8` is modelled by its value). -/
def ageTryFrom (value : Nat) : Except AgeParsingError Nat :=
  if 120 < value then .error .tooOld
  else .ok value

/-! ## `StagingVec` (`src/bioimg_gui/src/widgets/mod.rs`)

A child widget is abstracted by its state type `σ` (with its `Default`) and
its pure `state` observation `σ → ω`; `StagingVec` itself is its list of
children in insertion order. -/

/-- `StagingVec::new`: `staging = vec![Stg::default()]`. -/
def stagingVecNew (dflt : σ) : List σ := [dflt]

/-- The structural mutations `draw_and_parse` offers through the two
buttons: `grow` is the add button, `shrink` the remove button. -/
inductive VecOp where
  | grow
  | shrink
deriving DecidableEq, Repr

/-- One button press on a `StagingVec`: the add button does
`resize_with(len + 1, Stg::default)` (append one default child); the remove
button does `resize_with(len - 1, ...)` (drop the last child) guarded by
`staging.len() > 1`. -/
def stagingVecApply (dflt : σ) (staging : List σ) : VecOp → List σ
  | .grow => staging ++ [dflt]
  | .shrink => if 1 < staging.length then staging.dropLast else staging

/-- `StagingVec::state`: `staging.iter().map(|item| item.state()).collect()`. -/
def stagingVecState (childState : σ → ω) (staging : List σ) : List ω :=
  staging.map childState

/-! ## `BoundedString` and the citation-entry record
(`src/bioimg_gui/src/widgets/cite_widget.rs`,
`src/bioimg_spec/src/rdf/cite_entry.rs`) -/

/-- Modelled from the spec: `BoundedStringParsingError` of the
`bioimg_spec::rdf::bounded_string` module, whose source file is not in the
snapshot — the bounded string "fails with `TooShort`/`TooLong` (stating the
bound and the actual length)". -/
inductive BoundedStringParsingError where
  | tooShort (len bound : Nat)
  | tooLong (len bound : Nat)
deriving DecidableEq, Repr

/-- Modelled from the spec: `BoundedString<MIN, MAX>` construction from a
string, from the `bioimg_spec::rdf::bounded_string` module absent from the
snapshot — "constructs from a primitive string; fails with
`TooShort`/`TooLong` ... when the byte/character length falls outside
`[min, max]`. No other normalization." The value is modelled by the string
it wraps. -/
def boundedStringTryFrom (MIN MAX : Nat) (s : List Char) : Except BoundedStringParsingError (List Char) :=
  if s.length < MIN then .error (.tooShort s.length MIN)
  else if MAX < s.length then .error (.tooLong s.length MAX)
  else .ok s

/-- Stand-in for `url::Url`, opaque to the checks in this crate. -/
structure Url where
  spec : List Char
deriving DecidableEq, Repr

/-- Stand-in for `url::ParseError` of the external `url` crate. -/
inductive UrlParseError where
  | parseError
deriving DecidableEq, Repr

/-- `CiteEntry2ParsingError` of `cite_widget.rs`. -/
inductive CiteEntry2ParsingError where
  | empty
  | fieldError (e : BoundedStringParsingError)
  | badUrl (e : UrlParseError)
deriving DecidableEq, Repr

/-- `CiteEntry2` of `cite_entry.rs`: required text, optional doi, optional
url. The two bounded-string fields are `BoundedString<1, 1023>`
(`ConfString` in `cite_widget.rs`). -/
structure CiteEntry2 where
  text : List Char
  doi : Option (List Char)
  url : Option Url
deriving DecidableEq, Repr

/-- The mutable state of `StagingCiteEntry2` that `do_draw_and_parse`
consumes: the raw string of the required text field (`StagingString`), and
for each `StagingOpt` sub-widget `none` when absent or the inner raw string
when present. -/
structure StagingCiteEntry2 where
  stagingText : List Char
  stagingDoi : Option (List Char)
  stagingUrl : Option (List Char)
deriving DecidableEq, Repr

/-- `impl Default for StagingCiteEntry2`: empty text raw, both optionals
absent; the stored `parsed` outcome starts as `Err(Empty)`. -/
def stagingCiteEntry2Default : StagingCiteEntry2 :=
  { stagingText := [], stagingDoi := none, stagingUrl := none }

/-- The `parsed` field of `Default for StagingCiteEntry2`:
`Err(CiteEntry2ParsingError::Empty)`. -/
def citeEntry2DefaultParsed : Except CiteEntry2ParsingError CiteEntry2 :=
  .error .empty

/-- `Option<Result>::transpose` followed by `?` with the
`From<BoundedStringParsingError>` conversion (`FieldError`). -/
def transposeField (r : Option (Except BoundedStringParsingError (List Char))) :
    Except CiteEntry2ParsingError (Option (List Char)) :=
  match r with
  | none => .ok none
  | some (.ok v) => .ok (some v)
  | some (.error e) => .error (.fieldError e)

/-- `Option<Result>::transpose` followed by `?` with the
`From<url::ParseError>` conversion (`BadUrl`). -/
def transposeUrl (r : Option (Except UrlParseError Url)) :
    Except CiteEntry2ParsingError (Option Url) :=
  match r with
  | none => .ok none
  | some (.ok v) => .ok (some v)
  | some (.error e) => .error (.badUrl e)

/-- `StagingCiteEntry2::do_draw_and_parse`: redraw each sub-widget (which
recomputes its parse from its raw value — the text and doi fields through
`BoundedString<1, 1023>`, the url field through the external `url` crate's
parser, passed in as `urlParse`), then assemble
`CiteEntry2 { text: text_res?, doi: doi_res.transpose()?, url: url_res.transpose()? }`,
the `?` operators running in the struct literal's field order. -/
def doDrawAndParse (urlParse : List Char → Except UrlParseError Url)
    (w : StagingCiteEntry2) : Except CiteEntry2ParsingError CiteEntry2 :=
  let textRes := boundedStringTryFrom 1 1023 w.stagingText
  let doiRes := w.stagingDoi.map (boundedStringTryFrom 1 1023)
  let urlRes := w.stagingUrl.map urlParse
  match textRes with
  | .error e => .error (.fieldError e)
  | .ok text =>
    match transposeField doiRes with
    | .error e => .error e
    | .ok doi =>
      match transposeUrl urlRes with
      | .error e => .error e
      | .ok url => .ok { text := text, doi := doi, url := url }

/-! ## Theorems -/

/-- C4: parsing `"1.2"` fails with `WrongNumberOfComponents { found: 2 }`;
parsing `"1.2.bla"` fails with a `ParseIntError` (an invalid digit), and the
failure originates from the third component (the split yields
`["1", "2", "bla"]`, the first two parse, the third does not); parsing
`"1.2.3"` succeeds with major 1, minor 2, patch 3. -/
theorem version_parse_examples :
    versionTryFrom "1.2".toList = .error (.wrongNumberOfComponents 2) ∧
    versionTryFrom "1.2.bla".toList = .error (.parseIntError .invalidDigit) ∧
    splitDot "1.2.bla".toList = ["1".toList, "2".toList, "bla".toList] ∧
    parseUsize "1".toList = .ok 1 ∧
    parseUsize "2".toList = .ok 2 ∧
    parseUsize "bla".toList = .error .invalidDigit ∧
    versionTryFrom "1.2.3".toList = .ok ⟨1, 2, 3⟩ :=
  ⟨rfl, rfl, rfl, rfl, rfl, rfl, rfl⟩

/-- C3: conversion of a `Version` to `LiteralVersion<MAJOR, MINOR, PATCH>`
succeeds exactly when the three components equal the pinned constants, and
otherwise fails with `UnexpectedVersion` carrying the pinned triple as
`expected` and the offending version as `found`. -/
theorem literal_version_pins (MAJOR MINOR PATCH : Nat) (v : Version) :
    (literalVersionTryFrom MAJOR MINOR PATCH v = .ok () ↔
      v = ⟨MAJOR, MINOR, PATCH⟩) ∧
    (v ≠ ⟨MAJOR, MINOR, PATCH⟩ →
      literalVersionTryFrom MAJOR MINOR PATCH v =
        .error (.unexpectedVersion ⟨MAJOR, MINOR, PATCH⟩ v)) := by
  constructor
  · unfold literalVersionTryFrom
    split
    · rename_i h
      simp only [true_iff]
      obtain ⟨h1, h2, h3⟩ := h
      cases v
      simp_all
    · rename_i h
      constructor
      · intro hc
        simp at hc
      · intro hv
        cases v
        simp_all [Version.mk.injEq]
  · intro hne
    unfold literalVersionTryFrom
    split
    · rename_i h
      obtain ⟨h1, h2, h3⟩ := h
      exfalso
      apply hne
      cases v
      simp_all
    · rfl

/-- Witness for C3 at the pinned triple `{1, 0, 0}` and the found version
`{1, 0, 1}`. -/
theorem literal_version_pins_witness :
    literalVersionTryFrom 1 0 0 ⟨1, 0, 1⟩ =
      .error (.unexpectedVersion ⟨1, 0, 0⟩ ⟨1, 0, 1⟩) :=
  (literal_version_pins 1 0 0 ⟨1, 0, 1⟩).2 (by decide)

/-- C7: `Age::try_from(v)` succeeds exactly when `v ≤ 120` and fails with
`TooOld` otherwise; every failure is `TooOld` (there is no `TooYoung`
variant); in particular 120 and 0 are accepted and 121 is rejected. -/
theorem age_bounds :
    (∀ v : Nat, ageTryFrom v = .ok v ↔ v ≤ 120) ∧
    (∀ v : Nat, 120 < v → ageTryFrom v = .error .tooOld) ∧
    (∀ v e, ageTryFrom v = .error e → e = .tooOld) ∧
    ageTryFrom 120 = .ok 120 ∧
    ageTryFrom 0 = .ok 0 ∧
    ageTryFrom 121 = .error .tooOld := by
  refine ⟨?_, ?_, ?_, rfl, rfl, rfl⟩
  · intro v
    unfold ageTryFrom
    split
    · rename_i h
      constructor
      · intro hc
        simp at hc
      · omega
    · simp
      omega
  · intro v hv
    unfold ageTryFrom
    split
    · rfl
    · omega
  · intro v e hv
    cases e
    rfl

/-- Witness for C7 at `v = 200`. -/
theorem age_bounds_witness : ageTryFrom 200 = .error .tooOld :=
  age_bounds.2.1 200 (by omega)

/-- A failing component makes `collect` fail with that component's error,
whichever position it occupies. -/
theorem collectUsizes_error (comps : List (List Char)) :
    (∃ c ∈ comps, ∃ e, parseUsize c = .error e) →
    ∃ e, collectUsizes comps = .error e := by
  induction comps with
  | nil => rintro ⟨c, hc, _⟩; simp at hc
  | cons head tail ih =>
    rintro ⟨c, hc, e, he⟩
    unfold collectUsizes
    cases hp : parseUsize head with
    | error e0 => exact ⟨e0, rfl⟩
    | ok n =>
      have htail : ∃ c ∈ tail, ∃ e, parseUsize c = .error e := by
        rcases List.mem_cons.mp hc with h | h
        · subst h; rw [hp] at he; cases he
        · exact ⟨c, h, e, he⟩
      obtain ⟨e1, he1⟩ := ih htail
      rw [he1]
      exact ⟨e1, rfl⟩

/-- C10: a failing integer parse of any dot-separated component takes
precedence over the component-count check — whenever some component fails
to parse, `Version` parsing reports `ParseIntError`, even with a component
count other than 3: `"1.2.3.x"` (4 components) and `""` (1 component) both
yield `ParseIntError`, not `WrongNumberOfComponents`. -/
theorem version_parse_error_precedence :
    (∀ value : List Char,
      (∃ c ∈ splitDot value, ∃ e, parseUsize c = .error e) →
      ∃ e, versionTryFrom value = .error (.parseIntError e)) ∧
    versionTryFrom "1.2.3.x".toList = .error (.parseIntError .invalidDigit) ∧
    (splitDot "1.2.3.x".toList).length = 4 ∧
    versionTryFrom "".toList = .error (.parseIntError .empty) ∧
    (splitDot "".toList).length = 1 := by
  refine ⟨?_, rfl, rfl, rfl, rfl⟩
  intro value hfail
  obtain ⟨e, he⟩ := collectUsizes_error (splitDot value) hfail
  refine ⟨e, ?_⟩
  unfold versionTryFrom
  rw [he]

/-- Witness for C10 at the input `"x.2"` (2 components, first invalid). -/
theorem version_parse_error_precedence_witness :
    ∃ e, versionTryFrom "x.2".toList = .error (.parseIntError e) :=
  version_parse_error_precedence.1 "x.2".toList
    ⟨"x".toList, by decide, .invalidDigit, rfl⟩

/-- C5: a buffer longer than `500 * 1024` bytes is rejected with `TooBig`
carrying the exact buffer length, whatever the decoder would do with it (the
size gate runs before decoding, so such a buffer can produce neither
`BadImageData` nor `BadAspectRatio`); a buffer of length at most
`500 * 1024` is never rejected with `TooBig`. -/
theorem cover_image_size_gate :
    (∀ (decode : List Nat → Except ImageError DecodedImage) (value : List Nat),
      maxSizeInBytes < value.length →
      coverImageTryFrom decode value = .error (.tooBig value.length)) ∧
    (∀ (decode : List Nat → Except ImageError DecodedImage) (value : List Nat)
      (s : Nat), value.length ≤ maxSizeInBytes →
      coverImageTryFrom decode value ≠ .error (.tooBig s)) := by
  constructor
  · intro decode value h
    unfold coverImageTryFrom
    simp [h]
  · intro decode value s h
    unfold coverImageTryFrom
    have hlt : ¬maxSizeInBytes < value.length := by omega
    simp only [hlt, if_false]
    cases decode value with
    | error e => simp
    | ok img =>
      simp only
      split
      · simp
      · simp

/-- Witness for C5: a 512001-byte buffer (one past the limit) is rejected
as `TooBig` before the decoder (here one that would fail) ever runs. -/
theorem cover_image_size_gate_witness :
    coverImageTryFrom (fun _ => .error .decodeFailure) (List.replicate (500 * 1024 + 1) 0) =
      .error (.tooBig (List.replicate (500 * 1024 + 1) 0).length) :=
  cover_image_size_gate.1 (fun _ => .error .decodeFailure)
    (List.replicate (500 * 1024 + 1) 0)
    (by rw [List.length_replicate]; norm_num [maxSizeInBytes])

/-- `is_valid_ratio` holds exactly for the `f32` ratios `1.0` and `2.0`. -/
theorem isValidRatio_iff (r : Option F32) :
    isValidRatio r = true ↔ (r = some F32.one ∨ r = some F32.two) := by
  rcases eq_or_ne r (some F32.one) with h1 | h1
  · subst h1
    decide
  · rcases eq_or_ne r (some F32.two) with h2 | h2
    · subst h2
      decide
    · simp [isValidRatio, allowedWidthToHeightRatios, List.find?, h1, h2,
        Ne.symm h1, Ne.symm h2]

/-- C6: a decoded image whose `f32` width/height ratio differs from both
allowed constants `1.0` and `2.0` (strict `f32` equality, no tolerance) is
rejected with `BadAspectRatio` carrying that ratio; a 100×100 image (ratio
exactly `1.0`) is accepted and a 100×99 image is rejected with
`BadAspectRatio`. -/
theorem cover_image_ratio_gate :
    (∀ (decode : List Nat → Except ImageError DecodedImage) (value : List Nat)
      (img : DecodedImage),
      value.length ≤ maxSizeInBytes → decode value = .ok img →
      ¬(ratioF32 img.width img.height = some F32.one ∨
        ratioF32 img.width img.height = some F32.two) →
      coverImageTryFrom decode value =
        .error (.badAspectRatio (ratioF32 img.width img.height))) ∧
    coverImageTryFrom (fun _ => .ok ⟨100, 100⟩) [] = .ok ⟨100, 100⟩ ∧
    ratioF32 100 100 = some F32.one ∧
    coverImageTryFrom (fun _ => .ok ⟨100, 99⟩) [] =
      .error (.badAspectRatio (ratioF32 100 99)) ∧
    ratioF32 100 99 ≠ some F32.one ∧
    ratioF32 100 99 ≠ some F32.two := by
  refine ⟨?_, rfl, by decide, rfl, by decide, by decide⟩
  intro decode value img hsize hdec hbad
  unfold coverImageTryFrom
  have hlt : ¬maxSizeInBytes < value.length := by omega
  simp only [hlt, if_false, hdec]
  have hval : isValidRatio (ratioF32 img.width img.height) = false := by
    rcases hb : isValidRatio (ratioF32 img.width img.height) with _ | _
    · rfl
    · exact absurd ((isValidRatio_iff _).mp hb) hbad
  simp [hval]

/-- Witness for C6: the general rejection branch applied to a decoder
producing a 100×99 image. -/
theorem cover_image_ratio_gate_witness :
    coverImageTryFrom (fun _ => .ok ⟨100, 99⟩) [] =
      .error (.badAspectRatio (ratioF32 100 99)) :=
  cover_image_ratio_gate.1 (fun _ => .ok ⟨100, 99⟩) [] ⟨100, 99⟩
    (by simp [maxSizeInBytes]) rfl (by decide)

/-- The occupancy invariant is preserved by each button press. -/
theorem stagingVecApply_occupancy (dflt : σ) (staging : List σ) (op : VecOp)
    (h : 1 ≤ staging.length) : 1 ≤ (stagingVecApply dflt staging op).length := by
  cases op with
  | grow => simp [stagingVecApply]
  | shrink =>
    simp only [stagingVecApply]
    split
    · rename_i hlen
      rw [List.length_dropLast]
      omega
    · exact h

/-- C8: a `StagingVec` newly constructed with a default seed holds exactly
one default child, and after any sequence of add-button (`grow`) and
remove-button (`shrink`) presses the number of children stays at least 1
(`shrink` is a no-op at one child). -/
theorem staging_vec_occupancy (dflt : σ) :
    stagingVecNew dflt = [dflt] ∧
    ∀ ops : List VecOp,
      1 ≤ (ops.foldl (stagingVecApply dflt) (stagingVecNew dflt)).length := by
  refine ⟨rfl, ?_⟩
  have key : ∀ (ops : List VecOp) (l : List σ), 1 ≤ l.length →
      1 ≤ (ops.foldl (stagingVecApply dflt) l).length := by
    intro ops
    induction ops with
    | nil => intro l h; simpa using h
    | cons op rest ih =>
      intro l h
      simp only [List.foldl_cons]
      exact ih _ (stagingVecApply_occupancy dflt l op h)
  intro ops
  exact key ops (stagingVecNew dflt) (by simp [stagingVecNew])

/-- Witness for C8: one add then two remove presses on a vector of `Nat`
children seeded with `0` still leave at least one child. -/
theorem staging_vec_occupancy_witness :
    stagingVecNew (0 : Nat) = [0] ∧
    1 ≤ (([VecOp.grow, VecOp.shrink, VecOp.shrink].foldl
      (stagingVecApply 0) (stagingVecNew 0)).length) :=
  ⟨(staging_vec_occupancy 0).1,
    (staging_vec_occupancy 0).2 [VecOp.grow, VecOp.shrink, VecOp.shrink]⟩

/-- C9: `StagingVec::state` returns one outcome per child, in insertion
order (entry `i` is child `i`'s own outcome), with no short-circuiting on
an invalid child; replacing child `j` leaves every other child's reported
outcome unchanged. -/
theorem staging_vec_state_pointwise (childState : σ → ω) (staging : List σ) :
    (stagingVecState childState staging).length = staging.length ∧
    (∀ i : Nat, (stagingVecState childState staging)[i]? =
      (staging[i]?).map childState) ∧
    (∀ (i j : Nat) (newChild : σ), i ≠ j →
      (stagingVecState childState (staging.set j newChild))[i]? =
        (stagingVecState childState staging)[i]?) := by
  refine ⟨by simp [stagingVecState], ?_, ?_⟩
  · intro i
    simp [stagingVecState]
  · intro i j newChild hij
    simp only [stagingVecState, List.getElem?_map]
    rw [List.getElem?_set_ne (by omega)]

/-- Witness for C9, echoing the spec's scenario: three age children where
items 1 and 3 are invalid and item 2 is valid — all three outcomes are
reported — and replacing item 2's value leaves item 1's reported error
unchanged. -/
theorem staging_vec_state_pointwise_witness :
    stagingVecState ageTryFrom [121, 50, 200] =
      [.error .tooOld, .ok 50, .error .tooOld] ∧
    (stagingVecState ageTryFrom ([121, 50, 200].set 1 7))[0]? =
      (stagingVecState ageTryFrom [121, 50, 200])[0]? :=
  ⟨rfl, (staging_vec_state_pointwise ageTryFrom [121, 50, 200]).2.2 0 1 7 (by omega)⟩

/-- C1 counterexample: with the text raw value empty (never populated) and
the URL sub-field present but failing to parse, `do_draw_and_parse` reports
the text field's bounded-string error wrapped as `FieldError` — not the
`Empty` sentinel the claim names. -/
theorem cite_empty_text_counterexample :
    doDrawAndParse (fun _ => .error .parseError)
        { stagingText := [], stagingDoi := none,
          stagingUrl := some "not a url".toList } =
      .error (.fieldError (.tooShort 0 1)) ∧
    doDrawAndParse (fun _ => .error .parseError)
        { stagingText := [], stagingDoi := none,
          stagingUrl := some "not a url".toList } ≠
      .error .empty := by
  have h : doDrawAndParse (fun _ => .error .parseError)
      { stagingText := [], stagingDoi := none,
        stagingUrl := some "not a url".toList } =
      .error (.fieldError (.tooShort 0 1)) := rfl
  refine ⟨h, ?_⟩
  rw [h]
  simp

/-- C1 as amended: whenever the required text sub-field's raw value fails
bounded-string validation (in particular the empty never-populated
default), assembling the record reports that text error wrapped as
`FieldError` — the first required-field failure in declared field order
(text, doi, url) — regardless of the URL sub-field's state, so never the
URL field's error; the `Empty` sentinel is only the record's initial
`parsed` outcome from `Default`, before any assembly. -/
theorem cite_text_error_precedence
    (urlParse : List Char → Except UrlParseError Url) (w : StagingCiteEntry2)
    (e : BoundedStringParsingError)
    (h : boundedStringTryFrom 1 1023 w.stagingText = .error e) :
    doDrawAndParse urlParse w = .error (.fieldError e) ∧
    citeEntry2DefaultParsed = .error .empty := by
  refine ⟨?_, rfl⟩
  unfold doDrawAndParse
  rw [h]

/-- Witness for the amended C1 at the claim's own scenario: empty text,
absent doi, present-but-invalid URL. -/
theorem cite_text_error_precedence_witness :
    doDrawAndParse (fun _ => .error .parseError)
        { stagingText := [], stagingDoi := none,
          stagingUrl := some "invalid url".toList } =
      .error (.fieldError (.tooShort 0 1)) ∧
    citeEntry2DefaultParsed = .error .empty :=
  cite_text_error_precedence (fun _ => .error .parseError)
    { stagingText := [], stagingDoi := none,
      stagingUrl := some "invalid url".toList }
    (.tooShort 0 1) rfl

/-! ### Decimal round-trip lemmas for C2 -/

/-- Rendering into an accumulator is rendering into `[]` followed by the
accumulator. -/
theorem natToDigitsAux_eq_append (n : Nat) :
    ∀ rest, natToDigitsAux n rest = natToDigitsAux n [] ++ rest := by
  induction n using Nat.strong_induction_on with
  | _ n ih =>
    intro rest
    by_cases h : n < 10
    · unfold natToDigitsAux
      rw [dif_pos h, dif_pos h]
      rfl
    · have hd : n / 10 < n := Nat.div_lt_self (by omega) (by omega)
      conv_lhs => unfold natToDigitsAux
      conv_rhs => unfold natToDigitsAux
      rw [dif_neg h, dif_neg h]
      rw [ih (n / 10) hd (digitChar (n % 10) :: rest),
        ih (n / 10) hd (digitChar (n % 10) :: [])]
      simp

/-- Recursion equation for `natToDigits` in append form. -/
theorem natToDigits_eq_of_ge (n : Nat) (h : ¬n < 10) :
    natToDigits n = natToDigits (n / 10) ++ [digitChar (n % 10)] := by
  unfold natToDigits
  conv_lhs => unfold natToDigitsAux
  rw [dif_neg h]
  exact natToDigitsAux_eq_append (n / 10) [digitChar (n % 10)]

/-- Every rendered character is the character of a decimal digit. -/
theorem mem_natToDigits (n : Nat) :
    ∀ c ∈ natToDigits n, ∃ d, d < 10 ∧ c = digitChar d := by
  induction n using Nat.strong_induction_on with
  | _ n ih =>
    intro c hc
    by_cases h : n < 10
    · unfold natToDigits natToDigitsAux at hc
      rw [dif_pos h] at hc
      rcases List.mem_cons.mp hc with h1 | h1
      · exact ⟨n, h, h1⟩
      · simp at h1
    · rw [natToDigits_eq_of_ge n h] at hc
      rcases List.mem_append.mp hc with h1 | h1
      · exact ih (n / 10) (Nat.div_lt_self (by omega) (by omega)) c h1
      · simp at h1
        exact ⟨n % 10, Nat.mod_lt _ (by omega), h1⟩

/-- No rendered digit is the separator `.`. -/
theorem natToDigits_no_dot (n : Nat) : '.' ∉ natToDigits n := by
  intro hc
  obtain ⟨d, hd, he⟩ := mem_natToDigits n '.' hc
  revert he
  interval_cases d <;> decide

/-- A rendered number has at least one digit. -/
theorem natToDigits_ne_nil (n : Nat) : natToDigits n ≠ [] := by
  by_cases h : n < 10
  · unfold natToDigits natToDigitsAux
    rw [dif_pos h]
    simp
  · rw [natToDigits_eq_of_ge n h]
    simp

/-- `digitVal` inverts `digitChar` on decimal digits. -/
theorem digitVal_digitChar (d : Nat) (h : d < 10) :
    digitVal (digitChar d) = some d := by
  interval_cases d <;> decide

/-- One step of the digit loop on a digit character within bounds. -/
theorem parseDigitsU64_cons_digit (acc d : Nat) (hd : d < 10) (rest : List Char)
    (hlt : 10 * acc + d < 2 ^ 64) :
    parseDigitsU64 acc (digitChar d :: rest) = parseDigitsU64 (10 * acc + d) rest := by
  simp only [parseDigitsU64, digitVal_digitChar d hd]
  rw [if_pos hlt]

/-- The digit loop consumes a rendered number as that number: running
`parseDigitsU64` over `natToDigitsAux n rest` accumulates `n` onto `acc`,
provided the final value fits in 64 bits. -/
theorem parseDigitsU64_natToDigitsAux (n : Nat) :
    ∀ acc rest, acc * 10 ^ digitCount n + n < 2 ^ 64 →
      parseDigitsU64 acc (natToDigitsAux n rest) =
        parseDigitsU64 (acc * 10 ^ digitCount n + n) rest := by
  induction n using Nat.strong_induction_on with
  | _ n ih =>
    intro acc rest hbound
    by_cases h : n < 10
    · have hdc : digitCount n = 1 := by
        unfold digitCount
        rw [dif_pos h]
      rw [hdc] at hbound ⊢
      unfold natToDigitsAux
      rw [dif_pos h]
      have hlt : 10 * acc + n < 2 ^ 64 := by
        rw [pow_one] at hbound
        omega
      rw [parseDigitsU64_cons_digit acc n h rest hlt]
      congr 1
      rw [pow_one]
      ring
    · have hd : n / 10 < n := Nat.div_lt_self (by omega) (by omega)
      have hdc : digitCount n = digitCount (n / 10) + 1 := by
        conv_lhs => unfold digitCount
        rw [dif_neg h]
      have hmod := Nat.div_add_mod n 10
      have hmodlt : n % 10 < 10 := Nat.mod_lt _ (by omega)
      have hbound2 : acc * 10 ^ digitCount (n / 10) + n / 10 < 2 ^ 64 := by
        rw [hdc, pow_succ, ← mul_assoc] at hbound
        generalize hB : acc * 10 ^ digitCount (n / 10) = B at hbound ⊢
        omega
      have key : 10 * (acc * 10 ^ digitCount (n / 10) + n / 10) + n % 10 =
          acc * 10 ^ digitCount n + n := by
        rw [hdc, pow_succ, ← mul_assoc]
        generalize hB : acc * 10 ^ digitCount (n / 10) = B
        omega
      have hlt2 : 10 * (acc * 10 ^ digitCount (n / 10) + n / 10) + n % 10 < 2 ^ 64 := by
        rw [key]
        exact hbound
      unfold natToDigitsAux
      rw [dif_neg h]
      rw [ih (n / 10) hd acc (digitChar (n % 10) :: rest) hbound2]
      rw [parseDigitsU64_cons_digit _ (n % 10) hmodlt rest hlt2, key]

/-- `parse` on a nonempty string not led by a sign goes straight to the
digit loop. -/
theorem parseUsize_cons_ne_plus (c : Char) (cs : List Char) (h : c ≠ '+') :
    parseUsize (c :: cs) = parseDigitsU64 0 (c :: cs) := by
  simp only [parseUsize]
  rw [if_neg h]

/-- `usize` parsing inverts decimal rendering for every value that fits in
64 bits. -/
theorem parseUsize_natToDigits (n : Nat) (h : n < 2 ^ 64) :
    parseUsize (natToDigits n) = .ok n := by
  obtain ⟨c, cs, hcons⟩ : ∃ c cs, natToDigits n = c :: cs := by
    cases hnd : natToDigits n with
    | nil => exact absurd hnd (natToDigits_ne_nil n)
    | cons c cs => exact ⟨c, cs, rfl⟩
  have hplus : c ≠ '+' := by
    obtain ⟨d, hd, he⟩ := mem_natToDigits n c (by rw [hcons]; exact List.mem_cons_self c cs)
    subst he
    interval_cases d <;> decide
  rw [hcons, parseUsize_cons_ne_plus c cs hplus, ← hcons]
  unfold natToDigits
  rw [parseDigitsU64_natToDigitsAux n 0 [] (by simpa using h)]
  simp [parseDigitsU64]

/-! ### Splitting lemmas for C2 -/

/-- Splitting a string that starts with the separator peels off one empty
component. -/
theorem splitDot_cons_dot (ys : List Char) :
    splitDot ('.' :: ys) = [] :: splitDot ys := by
  simp [splitDot]

/-- Splitting a string led by a non-separator prepends that character onto
the first component of the rest's split. -/
theorem splitDot_cons_ne (c : Char) (rest : List Char) (h : c ≠ '.') :
    splitDot (c :: rest) =
      match splitDot rest with
      | [] => [[c]]
      | x :: xs => (c :: x) :: xs := by
  simp only [splitDot]
  rw [if_neg h]

/-- A dot-free string splits into the single component it is. -/
theorem splitDot_no_dot (l : List Char) (h : '.' ∉ l) : splitDot l = [l] := by
  induction l with
  | nil => rfl
  | cons c rest ih =>
    have hc : c ≠ '.' := fun hcc => h (hcc ▸ List.mem_cons_self c rest)
    have hrest : '.' ∉ rest := fun hm => h (List.mem_cons_of_mem _ hm)
    rw [splitDot_cons_ne c rest hc, ih hrest]

/-- Splitting peels a dot-free prefix before a dot off as one component. -/
theorem splitDot_append (xs ys : List Char) (h : '.' ∉ xs) :
    splitDot (xs ++ '.' :: ys) = xs :: splitDot ys := by
  induction xs with
  | nil =>
    simp only [List.nil_append]
    exact splitDot_cons_dot ys
  | cons c xs' ih =>
    have hc : c ≠ '.' := fun hcc => h (hcc ▸ List.mem_cons_self c xs')
    have hxs : '.' ∉ xs' := fun hm => h (List.mem_cons_of_mem _ hm)
    simp only [List.cons_append]
    rw [splitDot_cons_ne c _ hc, ih hxs]

/-- C2: formatting any `Version` to its canonical `major.minor.patch`
string and parsing that string back yields an equal `Version` (the three
components being `usize` values, they are below `2 ^ 64`). -/
theorem version_roundtrip (v : Version) (h1 : v.major < 2 ^ 64)
    (h2 : v.minor < 2 ^ 64) (h3 : v.patch < 2 ^ 64) :
    versionTryFrom (versionIntoString v) = .ok v := by
  have hsplit : splitDot (versionIntoString v) =
      [natToDigits v.major, natToDigits v.minor, natToDigits v.patch] := by
    unfold versionIntoString
    rw [splitDot_append _ _ (natToDigits_no_dot v.major),
      splitDot_append _ _ (natToDigits_no_dot v.minor),
      splitDot_no_dot _ (natToDigits_no_dot v.patch)]
  have hcollect :
      collectUsizes [natToDigits v.major, natToDigits v.minor, natToDigits v.patch] =
      .ok [v.major, v.minor, v.patch] := by
    simp only [collectUsizes, parseUsize_natToDigits v.major h1,
      parseUsize_natToDigits v.minor h2, parseUsize_natToDigits v.patch h3]
  unfold versionTryFrom
  rw [hsplit, hcollect]
  rfl

/-- Witness for C2 at the spec's example `{major: 1, minor: 2, patch: 3}`. -/
theorem version_roundtrip_witness :
    versionTryFrom (versionIntoString ⟨1, 2, 3⟩) = .ok ⟨1, 2, 3⟩ :=
  version_roundtrip ⟨1, 2, 3⟩ (by norm_num) (by norm_num) (by norm_num)

end BioimgRs
